import Mathlib

/-
Verification of the segmented tween animation engine
(crates/hooks/src/use_animate.rs, the live variant of the engine).

Conventions of the shallow embedding:
- u32 times and durations are modelled as Nat; `checked_sub` becomes an
  Option-valued subtraction, and panicking calls (`expect`, `unwrap`) become
  Option/Except results or explicit `panicked` outcomes.
- f32 scalars are modelled as exact rationals.
- The externally supplied pieces that are not part of the sources under
  verification (color parsing from freya_node_state, the HSV conversions from
  freya_engine) are modelled from the spec; their doc comments say so.
-/

namespace Freya

/-- The shared easing-function shape from the source:
fn(time: f32, start: f32, end: f32, duration: f32) -> f32, with f32 as rational. -/
def EasingFunction : Type := ℚ → ℚ → ℚ → ℚ → ℚ

/-- The Easable trait: produce an eased output between two endpoints. -/
class Easable (T : Type) (O : outParam Type) where
  ease : T → T → Nat → Nat → EasingFunction → O

/-- impl Easable for f32: function(time as f32, *self, *to - *self, duration as f32). -/
def ratEase (s e : ℚ) (time duration : Nat) (function : EasingFunction) : ℚ :=
  function (time : ℚ) s (e - s) (duration : ℚ)

instance instEasableRat : Easable ℚ ℚ := ⟨ratEase⟩

/-- One interval of a timeline: start value, end value, duration (ms), easing function. -/
structure Segment (T O : Type) where
  start : T
  «end» : T
  duration : Nat
  function : EasingFunction

/-- The timeline: ordered segments plus the incrementally maintained total duration. -/
structure SegmentCompositor (T O : Type) where
  segments : List (Segment T O)
  total_duration : Nat

/-- SegmentCompositor::new — a single initial segment. -/
def SegmentCompositor.new [Easable T O] (start «end» : T) (duration : Nat)
    (function : EasingFunction) : SegmentCompositor T O :=
  { total_duration := duration
    segments := [{ start := start, «end» := «end», duration := duration, function := function }] }

/-- SegmentCompositor::add_segment — append a segment, bump total_duration. -/
def SegmentCompositor.add_segment [Easable T O] (self : SegmentCompositor T O)
    (start «end» : T) (duration : Nat) (function : EasingFunction) : SegmentCompositor T O :=
  { total_duration := self.total_duration + duration
    segments := self.segments ++
      [{ start := start, «end» := «end», duration := duration, function := function }] }

/-- SegmentCompositor::add_constant_segment — a hold: start = end = value and an
easing closure that always returns start. -/
def SegmentCompositor.add_constant_segment [Easable T O] (self : SegmentCompositor T O)
    (value : T) (duration : Nat) : SegmentCompositor T O :=
  { total_duration := self.total_duration + duration
    segments := self.segments ++
      [{ start := value, «end» := value, duration := duration,
         function := fun _time start _end _duration => start }] }

/-- AnimatedValue::duration for the compositor: the stored total. -/
def SegmentCompositor.duration (self : SegmentCompositor T O) : Nat :=
  self.total_duration

/-- The scan loop of SegmentCompositor::calc: accumulate elapsed time and take the
first segment with index >= accumulated and index <= accumulated + duration.
Returning none corresponds to the res.expect panic when no segment matches. -/
def calcGo [Easable T O] (index : Nat) : Nat → List (Segment T O) → Option O
  | _, [] => none
  | accumulated_time, segment :: rest =>
    if index ≥ accumulated_time ∧ index ≤ accumulated_time + segment.duration then
      some (Easable.ease segment.start segment.«end» (index - accumulated_time)
        segment.duration segment.function)
    else calcGo index (accumulated_time + segment.duration) rest

/-- AnimatedValue::calc for the compositor. -/
def SegmentCompositor.calc [Easable T O] (self : SegmentCompositor T O) (index : Nat) :
    Option O :=
  calcGo index 0 self.segments

/-- Sum of the durations of a list of segments. -/
def sumDur (segs : List (Segment T O)) : Nat :=
  (segs.map fun s => s.duration).sum

/-- Accumulated duration of the first k segments. -/
def accAt (segs : List (Segment T O)) (k : Nat) : Nat :=
  sumDur (segs.take k)

/-- The spec's window rule for segment k at a time index: accumulated < index and
index <= accumulated + duration, except that the very first segment also accepts
index = 0. -/
def specWindow (segs : List (Segment T O)) (k index : Nat) : Prop :=
  (accAt segs k < index ∧ index ≤ accAt segs (k + 1)) ∨ (k = 0 ∧ index = 0)

/-- Linear easing from the easer crate: f(t, b, c, d) = c * t / d + b. -/
def linearEasing : EasingFunction :=
  fun t b c d => c * t / d + b

/-- The constant-hold easing closure used by add_constant_segment. -/
def constantFn : EasingFunction :=
  fun _time start _end _duration => start

/-- A builder step: either add_segment or add_constant_segment. -/
inductive BuildOp (T : Type) where
  | segment (start «end» : T) (duration : Nat) (function : EasingFunction)
  | constant (value : T) (duration : Nat)

/-- Apply one builder step to a compositor. -/
def applyOp [Easable T O] (c : SegmentCompositor T O) : BuildOp T → SegmentCompositor T O
  | .segment s e d f => c.add_segment s e d f
  | .constant v d => c.add_constant_segment v d

/-- A timeline produced by new followed by any sequence of builder calls. -/
def build [Easable T O] (start «end» : T) (duration : Nat) (function : EasingFunction)
    (ops : List (BuildOp T)) : SegmentCompositor T O :=
  ops.foldl applyOp (SegmentCompositor.new start «end» duration function)

/-- A color with 8-bit channels, the output color representation. -/
structure Color where
  r : Nat
  g : Nat
  b : Nat
  a : Nat
deriving DecidableEq

/-- A color decomposed into the hue/saturation/value interpolation space. -/
structure HSV where
  h : ℚ
  s : ℚ
  v : ℚ
deriving DecidableEq

/-- The error of a failed endpoint parse, per the spec's error taxonomy. -/
inductive EaseError where
  | parseError
deriving DecidableEq

instance : DecidableEq (Except EaseError String) := fun x y =>
  match x, y with
  | .error a, .error b =>
    if h : a = b then isTrue (by rw [h]) else isFalse (fun hh => by cases hh; exact h rfl)
  | .error _, .ok _ => isFalse (fun hh => by cases hh)
  | .ok _, .error _ => isFalse (fun hh => by cases hh)
  | .ok a, .ok b =>
    if h : a = b then isTrue (by rw [h]) else isFalse (fun hh => by cases hh; exact h rfl)

/-- Consume one expected character. -/
def expectChar (c : Char) : List Char → Option (List Char)
  | [] => none
  | x :: xs => if x = c then some xs else none

/-- Digits to the Nat they denote. -/
def digitsToNat (ds : List Char) : Nat :=
  ds.foldl (fun acc c => acc * 10 + (c.toNat - 48)) 0

/-- Parse a decimal number, allowing spaces before and after it. -/
def parseNum (cs : List Char) : Option (Nat × List Char) :=
  let cs := cs.dropWhile (fun c => c = ' ')
  let p := cs.span (fun c => c.isDigit)
  match p.1 with
  | [] => none
  | ds => some (digitsToNat ds, p.2.dropWhile (fun c => c = ' '))

/-- Modelled from the spec: Color parsing lives in freya_node_state, which is not
among the sources; the spec says endpoints are parsed as color tokens and that the
canonical form is rgb(r,g,b,a), so the model recognizes exactly that form, with
optional spaces around the numbers, each channel at most 255. -/
def Color.parse (str : String) : Option Color := do
  let cs := str.toList
  let cs ← expectChar 'r' cs
  let cs ← expectChar 'g' cs
  let cs ← expectChar 'b' cs
  let cs ← expectChar '(' cs
  let (r, cs) ← parseNum cs
  let cs ← expectChar ',' cs
  let (g, cs) ← parseNum cs
  let cs ← expectChar ',' cs
  let (b, cs) ← parseNum cs
  let cs ← expectChar ',' cs
  let (a, cs) ← parseNum cs
  let cs ← expectChar ')' cs
  match cs with
  | [] => if r ≤ 255 ∧ g ≤ 255 ∧ b ≤ 255 ∧ a ≤ 255 then some ⟨r, g, b, a⟩ else none
  | _ => none

/-- Modelled from the spec: Color::to_hsv comes from freya_engine, not among the
sources; the spec says endpoints are decomposed into the hue/saturation/value
space, so this is the standard exact RGB to HSV conversion on channels scaled
to [0, 1] (hue in degrees). Alpha is not part of the interpolation space. -/
def Color.to_hsv (c : Color) : HSV :=
  let r : ℚ := (c.r : ℚ) / 255
  let g : ℚ := (c.g : ℚ) / 255
  let b : ℚ := (c.b : ℚ) / 255
  let maxc := max r (max g b)
  let minc := min r (min g b)
  let d := maxc - minc
  let v := maxc
  let s := if maxc = 0 then 0 else d / maxc
  let h :=
    if d = 0 then 0
    else if maxc = r then
      let h0 := 60 * ((g - b) / d)
      if h0 < 0 then h0 + 360 else h0
    else if maxc = g then 60 * ((b - r) / d) + 120
    else 60 * ((r - g) / d) + 240
  ⟨h, s, v⟩

/-- Modelled from the spec: HSV::to_color comes from freya_engine, not among the
sources; the spec says the eased components are recomposed into the output color
representation. This is the standard exact HSV to RGB conversion; the integer
argument (the source passes 1) becomes the alpha channel of the produced color,
matching the conversion's signature. -/
def HSV.to_color (hsv : HSV) (alpha : Nat) : Color :=
  let c := hsv.v * hsv.s
  let hp := hsv.h / 60
  let hmod2 : ℚ := hp - 2 * (⌊hp / 2⌋ : ℤ)
  let x := c * (1 - |hmod2 - 1|)
  let m := hsv.v - c
  let region : ℤ := ⌊hp⌋
  let rgb : ℚ × ℚ × ℚ :=
    if region = 0 then (c, x, 0)
    else if region = 1 then (x, c, 0)
    else if region = 2 then (0, c, x)
    else if region = 3 then (0, x, c)
    else if region = 4 then (x, 0, c)
    else (c, 0, x)
  let toByte (q : ℚ) : Nat := (⌊(q + m) * 255 + 1 / 2⌋).toNat
  ⟨toByte rgb.1, toByte rgb.2.1, toByte rgb.2.2, alpha⟩

/-- impl Easable for Color: decompose both endpoints to HSV, ease each channel
with the same easing function, recompose with to_color(1). -/
def Color.ease (c1 c2 : Color) (time duration : Nat) (function : EasingFunction) : Color :=
  let hsv1 := c1.to_hsv
  let hsv2 := c2.to_hsv
  let h := function (time : ℚ) hsv1.h (hsv2.h - hsv1.h) (duration : ℚ)
  let s := function (time : ℚ) hsv1.s (hsv2.s - hsv1.s) (duration : ℚ)
  let v := function (time : ℚ) hsv1.v (hsv2.v - hsv1.v) (duration : ℚ)
  (HSV.mk h s v).to_color 1

instance instEasableColor : Easable Color Color := ⟨Color.ease⟩

/-- The canonical serialization from the source: format!("rgb({}, {}, {}, {})", ...). -/
def serializeRgb (c : Color) : String :=
  "rgb(" ++ toString c.r ++ ", " ++ toString c.g ++ ", " ++ toString c.b ++ ", " ++
    toString c.a ++ ")"

/-- impl Easable for &str: parse both endpoints as colors, delegate to the color
easing, re-serialize. The expect/unwrap panics on an unparsable endpoint are
embedded as an Except error. -/
def strEase (s1 s2 : String) (time duration : Nat) (function : EasingFunction) :
    Except EaseError String :=
  match Color.parse s1, Color.parse s2 with
  | some c1, some c2 => .ok (serializeRgb (Color.ease c1 c2 time duration function))
  | _, _ => .error .parseError

instance instEasableString : Easable String (Except EaseError String) := ⟨strEase⟩

/-- The red endpoint string of the spec's two-segment scenario. -/
def redStr : String := "rgb(255,0,0,255)"

/-- The blue endpoint string of the spec's two-segment scenario. -/
def blueStr : String := "rgb(0,0,255,255)"

/-- The spec's two-segment scenario: hold red for 100ms (the constant-hold easing
closure, as add_constant_segment would install), then ease red to blue over 200ms
with linear easing. -/
def tl7 : SegmentCompositor String (Except EaseError String) :=
  (SegmentCompositor.new redStr redStr 100 constantFn).add_segment redStr blueStr 200
    linearEasing

/-- A concrete two-segment rational timeline used by witnesses. -/
def tlW : SegmentCompositor ℚ ℚ :=
  (SegmentCompositor.new 0 10 1000 linearEasing).add_segment 10 20 500 linearEasing

/-- The run direction. -/
inductive Direction where
  | forward
  | backward
deriving DecidableEq

/-- offset_time from the tick loop: anchor + elapsed for Forward and
anchor.checked_sub(elapsed) for Backward, None signalling underflow. -/
def offset_time (direction : Direction) (anchor : Nat) (elapsed : Nat) : Option Nat :=
  match direction with
  | .forward => some (anchor + elapsed)
  | .backward => if elapsed ≤ anchor then some (anchor - elapsed) else none

/-- The state a tick-loop iteration starts from: the anchor, the last-known
direction captured once before the loop (the source never reassigns it inside
the loop), the published value and the running flag. -/
structure LoopState (O : Type) where
  anchor : Nat
  last_direction : Direction
  value : O
  is_running : Bool
deriving DecidableEq

/-- Outcome of one iteration of the tick loop: a panic of one of the two
expect("to not underflow") calls, a break out of the loop, or continuation
(with a flag recording whether the offset instant was reset). -/
inductive TickResult (O : Type) where
  | panicked
  | broke (final : LoopState O)
  | next (st : LoopState O) (offsetWasReset : Bool)
deriving DecidableEq

/-- One iteration of the tick loop of UseAnimator::run, after the ticker fired.
direction is the value of the direction signal during this iteration; e1, e2 and
e3 are the readings of offset.elapsed() at its three call sites (the boundary
check, the direction-change re-anchoring, the sample; time may advance between
them, and e3 is measured from the fresh instant when the re-anchoring ran).
In order, faithfully to the source: the boundary check uses the current
direction with unwrap_or(0); an offset of 0 publishes calc(duration) and clears
the running flag; an offset at or past duration publishes calc(duration) and
clears the flag; a cleared flag breaks the loop; a direction different from
last_direction re-anchors via offset_time under the old direction (panicking on
underflow) and resets the instant; finally the loop publishes the sample at the
offset under the current direction (panicking on underflow). -/
def tick (calcFn : Nat → O) (dur : Nat) (direction : Direction)
    (e1 e2 e3 : Nat) (s : LoopState O) : TickResult O :=
  let current_offset_time := (offset_time direction s.anchor e1).getD 0
  let s1 :=
    if current_offset_time = 0 then { s with value := calcFn dur, is_running := false } else s
  let s2 :=
    if current_offset_time ≥ dur then { s1 with value := calcFn dur, is_running := false } else s1
  if s2.is_running = false then .broke s2
  else if s2.last_direction ≠ direction then
    match offset_time s2.last_direction s2.anchor e2 with
    | none => .panicked
    | some a =>
      match offset_time direction a e3 with
      | none => .panicked
      | some t => .next { s2 with anchor := a, value := calcFn t } true
  else
    match offset_time direction s2.anchor e3 with
    | none => .panicked
    | some t => .next { s2 with value := calcFn t } false

/-- The anchor chosen when a run is spawned: 0 for Forward, duration for Backward. -/
def initAnchor (dur : Nat) : Direction → Nat
  | .forward => 0
  | .backward => dur

/-- The scheduler state seen by run(): the requested-direction signal, the
is_running signal, the published value and the number of spawned and not yet
terminated tick loops; task.write().replace(task) drops the previous handle
without cancelling it, so a spawn always increments the count. -/
structure SchedulerState (O : Type) where
  direction : Direction
  is_running : Bool
  value : O
  activeLoops : Nat
deriving DecidableEq

/-- UseAnimator::run — writes the requested direction into the signal, then, only
when the is_running flag is false, spawns a new tick loop (which does not set the
flag, as in the source); when the flag is true nothing else happens. -/
def UseAnimator.run (direction : Direction) (s : SchedulerState O) : SchedulerState O :=
  let s := { s with direction := direction }
  if s.is_running = false then { s with activeLoops := s.activeLoops + 1 }
  else s

/-- use_animation — the initial scheduler state: direction signal Forward,
is_running initialized from the descriptor's auto_start, value sampled at the
Forward initial time 0, and no loop spawned (there is no auto-run hook). -/
def use_animation_init (auto_start : Bool) (calcFn : Nat → O) : SchedulerState O :=
  { direction := .forward, is_running := auto_start, value := calcFn 0, activeLoops := 0 }

/-- The sampling function of the linear 0 to 10 over 1000 ms timeline, totalized
with getD; every index the loop theorems sample is in range, where getD is the
identity. -/
def linCalc (i : Nat) : ℚ :=
  ((SegmentCompositor.new (0 : ℚ) 10 1000 linearEasing).calc i).getD 0

theorem sumDur_nil : sumDur ([] : List (Segment T O)) = 0 := rfl

theorem sumDur_cons (s : Segment T O) (rest : List (Segment T O)) :
    sumDur (s :: rest) = s.duration + sumDur rest := by
  simp [sumDur]

theorem sumDur_append (xs ys : List (Segment T O)) :
    sumDur (xs ++ ys) = sumDur xs + sumDur ys := by
  simp [sumDur]

/-- Claim C4: for every timeline produced by new, add_segment and
add_constant_segment, the stored total_duration (returned by duration()) equals
the sum of the segment durations, and each builder call maintains the invariant
incrementally. -/
theorem total_duration_eq_sum_of_segment_durations {T O : Type} [Easable T O] :
    (∀ (s e : T) (d : Nat) (f : EasingFunction),
      (SegmentCompositor.new s e d f : SegmentCompositor T O).duration =
        sumDur (SegmentCompositor.new (O := O) s e d f).segments) ∧
    (∀ (c : SegmentCompositor T O) (s e : T) (d : Nat) (f : EasingFunction),
      c.duration = sumDur c.segments →
      (c.add_segment s e d f).duration = sumDur (c.add_segment s e d f).segments) ∧
    (∀ (c : SegmentCompositor T O) (v : T) (d : Nat),
      c.duration = sumDur c.segments →
      (c.add_constant_segment v d).duration = sumDur (c.add_constant_segment v d).segments) ∧
    (∀ (s e : T) (d : Nat) (f : EasingFunction) (ops : List (BuildOp T)),
      (build s e d f ops : SegmentCompositor T O).duration =
        sumDur (build (O := O) s e d f ops).segments) := by
  have hnew : ∀ (s e : T) (d : Nat) (f : EasingFunction),
      (SegmentCompositor.new s e d f : SegmentCompositor T O).duration =
        sumDur (SegmentCompositor.new (O := O) s e d f).segments := by
    intro s e d f
    simp [SegmentCompositor.new, SegmentCompositor.duration, sumDur]
  have hseg : ∀ (c : SegmentCompositor T O) (s e : T) (d : Nat) (f : EasingFunction),
      c.duration = sumDur c.segments →
      (c.add_segment s e d f).duration = sumDur (c.add_segment s e d f).segments := by
    intro c s e d f h
    simp [SegmentCompositor.add_segment, SegmentCompositor.duration, sumDur_append,
      sumDur_cons, sumDur_nil] at *
    omega
  have hconst : ∀ (c : SegmentCompositor T O) (v : T) (d : Nat),
      c.duration = sumDur c.segments →
      (c.add_constant_segment v d).duration = sumDur (c.add_constant_segment v d).segments := by
    intro c v d h
    simp [SegmentCompositor.add_constant_segment, SegmentCompositor.duration, sumDur_append,
      sumDur_cons, sumDur_nil] at *
    omega
  refine ⟨hnew, hseg, hconst, ?_⟩
  intro s e d f ops
  have hfold : ∀ (ops : List (BuildOp T)) (c : SegmentCompositor T O),
      c.duration = sumDur c.segments →
      (ops.foldl applyOp c).duration = sumDur (ops.foldl applyOp c).segments := by
    intro ops
    induction ops with
    | nil => intro c h; exact h
    | cons op rest ih =>
      intro c h
      cases op with
      | segment s e dd ff => exact ih _ (hseg c s e dd ff h)
      | constant v dd => exact ih _ (hconst c v dd h)
  exact hfold ops _ (hnew s e d f)

/-- Witness for C4: the invariant applied to a concrete build. -/
theorem total_duration_eq_sum_of_segment_durations_witness :
    tlW.duration = sumDur tlW.segments :=
  (total_duration_eq_sum_of_segment_durations (T := ℚ)).2.1
    (SegmentCompositor.new 0 10 1000 linearEasing) 10 20 500 linearEasing
    ((total_duration_eq_sum_of_segment_durations (T := ℚ)).1 0 10 1000 linearEasing)

theorem accAt_zero (segs : List (Segment T O)) : accAt segs 0 = 0 := rfl

theorem accAt_cons (s : Segment T O) (rest : List (Segment T O)) (k : Nat) :
    accAt (s :: rest) (k + 1) = s.duration + accAt rest k := by
  simp [accAt, sumDur, List.take_succ_cons]

/-- Scanning from accumulated offset d + acc is the same as scanning the
shifted index from offset acc, as long as d <= index. -/
theorem calcGo_shift [Easable T O] (index d : Nat) (hd : d ≤ index) :
    ∀ (segs : List (Segment T O)) (acc : Nat),
      calcGo index (d + acc) segs = calcGo (index - d) acc segs := by
  intro segs
  induction segs with
  | nil => intro acc; rfl
  | cons s rest ih =>
    intro acc
    simp only [calcGo]
    by_cases h : index - d ≥ acc ∧ index - d ≤ acc + s.duration
    · have h' : index ≥ d + acc ∧ index ≤ d + acc + s.duration := by omega
      rw [if_pos h', if_pos h]
      have harg : index - (d + acc) = index - d - acc := by omega
      rw [harg]
    · have h' : ¬(index ≥ d + acc ∧ index ≤ d + acc + s.duration) := by omega
      rw [if_neg h', if_neg h]
      have hassoc : d + acc + s.duration = d + (acc + s.duration) := by omega
      rw [hassoc]
      exact ih (acc + s.duration)

/-- Core of claim C2: on a nonempty segment list and an in-range index, the scan
returns the interpolation of the unique segment whose spec window contains the
index, at relative time index - accumulated. -/
theorem calcGo_first_spec [Easable T O] :
    ∀ (segs : List (Segment T O)) (index : Nat), segs ≠ [] → index ≤ sumDur segs →
    ∃ k, ∃ hk : k < segs.length,
      specWindow segs k index ∧
      (∀ j, j < segs.length → specWindow segs j index → j = k) ∧
      calcGo index 0 segs =
        some (Easable.ease (segs.get ⟨k, hk⟩).start (segs.get ⟨k, hk⟩).«end»
          (index - accAt segs k) (segs.get ⟨k, hk⟩).duration (segs.get ⟨k, hk⟩).function) := by
  intro segs
  induction segs with
  | nil => intro index h; exact absurd rfl h
  | cons s rest ih =>
    intro index _ hidx
    have hacc1 : accAt (s :: rest) 1 = s.duration := by
      rw [accAt_cons]; simp [accAt_zero]
    by_cases hle : index ≤ s.duration
    · refine ⟨0, Nat.succ_pos _, ?_, ?_, ?_⟩
      · rcases Nat.eq_zero_or_pos index with h0 | hpos
        · exact Or.inr ⟨rfl, h0⟩
        · left
          refine ⟨?_, ?_⟩
          · rw [accAt_zero]; exact hpos
          · rw [hacc1]; exact hle
      · intro j hj hspec
        cases j with
        | zero => rfl
        | succ j' =>
          exfalso
          rcases hspec with ⟨h1, h2⟩ | ⟨hj0, _⟩
          · rw [accAt_cons] at h1
            omega
          · exact Nat.succ_ne_zero j' hj0
      · simp only [calcGo]
        rw [if_pos ⟨Nat.zero_le index, by omega⟩]
        simp [accAt_zero]
    · have hsd : s.duration < index := by omega
      have hrest_ne : rest ≠ [] := by
        intro h
        subst h
        rw [sumDur_cons, sumDur_nil] at hidx
        omega
      have hidx' : index - s.duration ≤ sumDur rest := by
        rw [sumDur_cons] at hidx
        omega
      obtain ⟨k', hk', hspec', huniq', hval'⟩ := ih (index - s.duration) hrest_ne hidx'
      refine ⟨k' + 1, Nat.succ_lt_succ hk', ?_, ?_, ?_⟩
      · rcases hspec' with ⟨h1, h2⟩ | ⟨_, h0⟩
        · left
          rw [accAt_cons, accAt_cons]
          omega
        · omega
      · intro j hj hspec
        cases j with
        | zero =>
          exfalso
          rcases hspec with ⟨h1, h2⟩ | ⟨_, h0⟩
          · rw [hacc1] at h2; omega
          · omega
        | succ j' =>
          have hspec'' : specWindow rest j' (index - s.duration) := by
            rcases hspec with ⟨h1, h2⟩ | ⟨hj0, _⟩
            · left
              rw [accAt_cons] at h1
              rw [accAt_cons] at h2
              omega
            · exact absurd hj0 (Nat.succ_ne_zero j')
          have := huniq' j' (Nat.lt_of_succ_lt_succ hj) hspec''
          omega
      · simp only [calcGo]
        rw [if_neg (by omega)]
        have hz : (0 : Nat) + s.duration = s.duration + 0 := by omega
        rw [hz, calcGo_shift index s.duration (by omega) rest 0, hval']
        have harg : index - accAt (s :: rest) (k' + 1) = index - s.duration - accAt rest k' := by
          rw [accAt_cons]; omega
        rw [harg]
        rfl

/-- Claim C2: for every timeline with at least one segment and every index in
[0, total_duration], calc matches exactly one segment, namely the first (and only)
one whose spec window accumulated < index <= accumulated + duration contains it
(the first segment also accepting index = 0), and returns that segment's
interpolation at relative time index - accumulated. -/
theorem calc_selects_unique_spec_window [Easable T O] (c : SegmentCompositor T O) (index : Nat)
    (hne : c.segments ≠ []) (hinv : c.total_duration = sumDur c.segments)
    (hidx : index ≤ c.total_duration) :
    ∃ k, ∃ hk : k < c.segments.length,
      specWindow c.segments k index ∧
      (∀ j, j < c.segments.length → specWindow c.segments j index → j = k) ∧
      c.calc index =
        some (Easable.ease (c.segments.get ⟨k, hk⟩).start (c.segments.get ⟨k, hk⟩).«end»
          (index - accAt c.segments k) (c.segments.get ⟨k, hk⟩).duration
          (c.segments.get ⟨k, hk⟩).function) :=
  calcGo_first_spec c.segments index hne (by omega)

/-- Witness for C2: the two-segment rational timeline sampled at 1200. -/
theorem calc_selects_unique_spec_window_witness :
    tlW.segments ≠ [] ∧ tlW.total_duration = sumDur tlW.segments ∧
    (1200 : Nat) ≤ tlW.total_duration ∧
    (∃ k, ∃ hk : k < tlW.segments.length,
      specWindow tlW.segments k 1200 ∧
      (∀ j, j < tlW.segments.length → specWindow tlW.segments j 1200 → j = k) ∧
      tlW.calc 1200 =
        some (Easable.ease (tlW.segments.get ⟨k, hk⟩).start (tlW.segments.get ⟨k, hk⟩).«end»
          (1200 - accAt tlW.segments k) (tlW.segments.get ⟨k, hk⟩).duration
          (tlW.segments.get ⟨k, hk⟩).function)) :=
  ⟨by simp [tlW, SegmentCompositor.new, SegmentCompositor.add_segment],
    by simp [tlW, SegmentCompositor.new, SegmentCompositor.add_segment, sumDur],
    by simp [tlW, SegmentCompositor.new, SegmentCompositor.add_segment],
    calc_selects_unique_spec_window tlW 1200
      (by simp [tlW, SegmentCompositor.new, SegmentCompositor.add_segment])
      (by simp [tlW, SegmentCompositor.new, SegmentCompositor.add_segment, sumDur])
      (by simp [tlW, SegmentCompositor.new, SegmentCompositor.add_segment])⟩

/-- Counterexample for C3: the claim quantifies over every easing function, but the
constant-zero easing function yields calc(0) = 0, not the start endpoint. -/
theorem calc_zero_not_start_for_arbitrary_easing :
    (SegmentCompositor.new (1 : ℚ) 2 10 (fun _ _ _ _ => 0)).calc 0 ≠ some 1 := by
  simp [SegmentCompositor.calc, SegmentCompositor.new, calcGo, Easable.ease, ratEase]

/-- Claim C3 (amended): for easing functions that respect the boundary convention
f(0, s, e - s, d) = s and f(d, s, e - s, d) = e, the single-segment timeline
new(s, e, d, f) has calc(0) = s and calc(d) = e. -/
theorem calc_boundary_exact_for_boundary_respecting_easing
    (s e : ℚ) (d : Nat) (f : EasingFunction)
    (h0 : f 0 s (e - s) (d : ℚ) = s) (hd : f (d : ℚ) s (e - s) (d : ℚ) = e) :
    (SegmentCompositor.new s e d f).calc 0 = some s ∧
    (SegmentCompositor.new s e d f).calc d = some e := by
  constructor
  · simp [SegmentCompositor.calc, SegmentCompositor.new, calcGo, Easable.ease, ratEase, h0]
  · simp [SegmentCompositor.calc, SegmentCompositor.new, calcGo, Easable.ease, ratEase, hd]

/-- Witness for C3's amended theorem: linear easing on a 0 to 10 timeline. -/
theorem calc_boundary_exact_for_boundary_respecting_easing_witness :
    linearEasing 0 0 (10 - 0) (1000 : Nat) = 0 ∧
    linearEasing (1000 : Nat) 0 (10 - 0) (1000 : Nat) = 10 ∧
    ((SegmentCompositor.new (0 : ℚ) 10 1000 linearEasing).calc 0 = some 0 ∧
      (SegmentCompositor.new (0 : ℚ) 10 1000 linearEasing).calc 1000 = some 10) :=
  ⟨by norm_num [linearEasing], by norm_num [linearEasing],
    calc_boundary_exact_for_boundary_respecting_easing 0 10 1000 linearEasing
      (by norm_num [linearEasing]) (by norm_num [linearEasing])⟩

theorem parse_red : Color.parse redStr = some ⟨255, 0, 0, 255⟩ := rfl

theorem parse_blue : Color.parse blueStr = some ⟨0, 0, 255, 255⟩ := rfl

theorem to_hsv_red : Color.to_hsv ⟨255, 0, 0, 255⟩ = ⟨0, 1, 1⟩ := by
  norm_num [Color.to_hsv, max_def, min_def]

theorem to_hsv_blue : Color.to_hsv ⟨0, 0, 255, 255⟩ = ⟨240, 1, 1⟩ := by
  norm_num [Color.to_hsv, max_def, min_def]

theorem ease_hold_red (t d : Nat) :
    Color.ease ⟨255, 0, 0, 255⟩ ⟨255, 0, 0, 255⟩ t d constantFn = ⟨255, 0, 0, 1⟩ := by
  rw [Color.ease, to_hsv_red]
  norm_num [constantFn, HSV.to_color]
  decide

theorem ease_red_blue_at_zero :
    Color.ease ⟨255, 0, 0, 255⟩ ⟨0, 0, 255, 255⟩ 0 200 linearEasing = ⟨255, 0, 0, 1⟩ := by
  rw [Color.ease, to_hsv_red, to_hsv_blue]
  norm_num [linearEasing, HSV.to_color]
  decide

theorem ease_red_blue_at_mid :
    Color.ease ⟨255, 0, 0, 255⟩ ⟨0, 0, 255, 255⟩ 100 200 linearEasing = ⟨0, 255, 0, 1⟩ := by
  rw [Color.ease, to_hsv_red, to_hsv_blue]
  norm_num [linearEasing, HSV.to_color]
  decide

theorem ease_red_blue_at_end :
    Color.ease ⟨255, 0, 0, 255⟩ ⟨0, 0, 255, 255⟩ 200 200 linearEasing = ⟨0, 0, 255, 1⟩ := by
  rw [Color.ease, to_hsv_red, to_hsv_blue]
  norm_num [linearEasing, HSV.to_color]
  decide

theorem tl7_calc_50 : tl7.calc 50 = some (.ok "rgb(255, 0, 0, 1)") := by
  have hsegs : tl7.calc 50 = calcGo 50 0
      [⟨redStr, redStr, 100, constantFn⟩, ⟨redStr, blueStr, 200, linearEasing⟩] := rfl
  rw [hsegs]
  norm_num [calcGo]
  show strEase redStr redStr 50 100 constantFn = _
  rw [strEase, parse_red]
  show Except.ok (serializeRgb (Color.ease ⟨255, 0, 0, 255⟩ ⟨255, 0, 0, 255⟩ 50 100
    constantFn)) = _
  rw [ease_hold_red]
  rfl

theorem tl7_calc_100 : tl7.calc 100 = some (.ok "rgb(255, 0, 0, 1)") := by
  have hsegs : tl7.calc 100 = calcGo 100 0
      [⟨redStr, redStr, 100, constantFn⟩, ⟨redStr, blueStr, 200, linearEasing⟩] := rfl
  rw [hsegs]
  norm_num [calcGo]
  show strEase redStr redStr 100 100 constantFn = _
  rw [strEase, parse_red]
  show Except.ok (serializeRgb (Color.ease ⟨255, 0, 0, 255⟩ ⟨255, 0, 0, 255⟩ 100 100
    constantFn)) = _
  rw [ease_hold_red]
  rfl

theorem tl7_calc_200 : tl7.calc 200 = some (.ok "rgb(0, 255, 0, 1)") := by
  have hsegs : tl7.calc 200 = calcGo 200 0
      [⟨redStr, redStr, 100, constantFn⟩, ⟨redStr, blueStr, 200, linearEasing⟩] := rfl
  rw [hsegs]
  norm_num [calcGo]
  show strEase redStr blueStr 100 200 linearEasing = _
  rw [strEase, parse_red, parse_blue]
  show Except.ok (serializeRgb (Color.ease ⟨255, 0, 0, 255⟩ ⟨0, 0, 255, 255⟩ 100 200
    linearEasing)) = _
  rw [ease_red_blue_at_mid]
  rfl

theorem tl7_calc_300 : tl7.calc 300 = some (.ok "rgb(0, 0, 255, 1)") := by
  have hsegs : tl7.calc 300 = calcGo 300 0
      [⟨redStr, redStr, 100, constantFn⟩, ⟨redStr, blueStr, 200, linearEasing⟩] := rfl
  rw [hsegs]
  norm_num [calcGo]
  show strEase redStr blueStr 200 200 linearEasing = _
  rw [strEase, parse_red, parse_blue]
  show Except.ok (serializeRgb (Color.ease ⟨255, 0, 0, 255⟩ ⟨0, 0, 255, 255⟩ 200 200
    linearEasing)) = _
  rw [ease_red_blue_at_end]
  rfl

/-- Claim C6: string-encoded color easing parses both endpoints; an unrecognized
endpoint yields a parse error (no silent default), otherwise the color easing's
result is re-serialized. -/
theorem strEase_surfaces_parse_failure (s1 s2 : String) (t d : Nat) (f : EasingFunction) :
    ((Color.parse s1 = none ∨ Color.parse s2 = none) →
      strEase s1 s2 t d f = .error .parseError) ∧
    (∀ c1 c2, Color.parse s1 = some c1 → Color.parse s2 = some c2 →
      strEase s1 s2 t d f = .ok (serializeRgb (Color.ease c1 c2 t d f))) := by
  constructor
  · intro h
    rw [strEase]
    rcases h with h | h
    · rw [h]
    · rw [h]
      rcases Color.parse s1 with _ | c <;> rfl
  · intro c1 c2 h1 h2
    rw [strEase, h1, h2]

/-- Witness for C6: an unrecognized endpoint produces the parse error. -/
theorem strEase_surfaces_parse_failure_witness :
    Color.parse "oops" = none ∧
    strEase "oops" redStr 5 10 linearEasing = .error .parseError :=
  ⟨rfl, (strEase_surfaces_parse_failure "oops" redStr 5 10 linearEasing).1 (Or.inl rfl)⟩

/-- Counterexample for C7: in the two-segment scenario calc(50) is not the string
rgb(255,0,0,255) — the code serializes with comma-space separators and with the
alpha that the HSV recomposition is called with (1), giving rgb(255, 0, 0, 1). -/
theorem tl7_calc_50_ne_claimed : tl7.calc 50 ≠ some (.ok "rgb(255,0,0,255)") := by
  rw [tl7_calc_50]
  intro h
  have hs : ("rgb(255, 0, 0, 1)" : String) = "rgb(255,0,0,255)" := by
    injection h with h
    injection h
  exact absurd hs (by decide)

/-- Claim C7 (amended): the two-segment scenario samples to the canonical
serializations actually produced by the code: calc(50) and calc(100) are
rgb(255, 0, 0, 1) (the held red, alpha 1), calc(100) equals the eased start of
segment two, calc(200) is the 50 percent HSV-interpolated color (green), and
calc(300) is rgb(0, 0, 255, 1) (blue). -/
theorem tl7_scenario_values :
    tl7.calc 50 = some (.ok "rgb(255, 0, 0, 1)") ∧
    tl7.calc 100 = some (.ok "rgb(255, 0, 0, 1)") ∧
    tl7.calc 100 = some (strEase redStr blueStr 0 200 linearEasing) ∧
    tl7.calc 200 = some (.ok "rgb(0, 255, 0, 1)") ∧
    tl7.calc 300 = some (.ok "rgb(0, 0, 255, 1)") := by
  refine ⟨tl7_calc_50, tl7_calc_100, ?_, tl7_calc_200, tl7_calc_300⟩
  rw [tl7_calc_100]
  have : strEase redStr blueStr 0 200 linearEasing = .ok "rgb(255, 0, 0, 1)" := by
    rw [strEase, parse_red, parse_blue]
    show Except.ok (serializeRgb (Color.ease ⟨255, 0, 0, 255⟩ ⟨0, 0, 255, 255⟩ 0 200
      linearEasing)) = _
    rw [ease_red_blue_at_zero]
    rfl
  rw [this]

theorem linCalc_0 : linCalc 0 = 0 := by
  norm_num [linCalc, SegmentCompositor.calc, SegmentCompositor.new, calcGo, Easable.ease,
    ratEase, linearEasing]

theorem linCalc_1000 : linCalc 1000 = 10 := by
  norm_num [linCalc, SegmentCompositor.calc, SegmentCompositor.new, calcGo, Easable.ease,
    ratEase, linearEasing]

theorem linCalc_800 : linCalc 800 = 8 := by
  norm_num [linCalc, SegmentCompositor.calc, SegmentCompositor.new, calcGo, Easable.ease,
    ratEase, linearEasing]

theorem linCalc_850 : linCalc 850 = 17 / 2 := by
  norm_num [linCalc, SegmentCompositor.calc, SegmentCompositor.new, calcGo, Easable.ease,
    ratEase, linearEasing]

/-- Claim C1 (code bug): on the linear 0 to 10 over 1000 ms timeline, a Forward
tick past the end publishes calc(total_duration) = 10, clears the running flag
and breaks, as claimed; but a Backward tick whose offset underflows to 0
publishes calc(total_duration) = 10 as well, not the claimed calc(0) = 0. -/
theorem backward_zero_boundary_publishes_end_value :
    tick linCalc 1000 .forward 1200 0 0 ⟨0, .forward, 3, true⟩ =
      .broke ⟨0, .forward, 10, false⟩ ∧
    tick linCalc 1000 .backward 1500 0 0 ⟨1000, .backward, 3, true⟩ =
      .broke ⟨1000, .backward, 10, false⟩ ∧
    linCalc 0 = 0 ∧ (10 : ℚ) ≠ 0 := by
  refine ⟨?_, ?_, linCalc_0, by norm_num⟩
  · norm_num [tick, offset_time, linCalc_1000]
  · norm_num [tick, offset_time, linCalc_1000]

/-- Claim C5 (code bug): both the direction-change re-anchoring and the per-tick
sample treat Backward underflow as a panic (expect), not as a boundary: a loop
last running Backward 5 ms from the start, asked to go Forward, panics while
re-anchoring once 10 ms have elapsed; and a Backward loop whose elapsed time
passes the anchor between the boundary check and the sample panics there. -/
theorem underflow_panics_in_reanchor_and_sample :
    tick linCalc 1000 .forward 10 10 0 ⟨5, .backward, 3, true⟩ = .panicked ∧
    tick linCalc 1000 .backward 999 0 1001 ⟨1000, .backward, 3, true⟩ = .panicked := by
  constructor
  · norm_num [tick, offset_time]
    intro h
    exact absurd h (by decide)
  · norm_num [tick, offset_time]

/-- Claim C9 (code bug): after run(Backward) interrupts a Forward run, the next
tick's boundary check runs under the new direction with the stale anchor 0, so
the offset underflows to 0 and the loop publishes calc(total_duration) = 10 and
stops instead of reversing from the in-flight value; and in states that survive
the check, last_direction is never updated, so every subsequent tick re-anchors
again under the old direction and the value keeps advancing forward while the
requested direction is Backward (8 at anchor 800, then 8.5 at anchor 850). -/
theorem direction_change_uses_stale_anchor_and_reanchors_every_tick :
    tick linCalc 1000 .backward 300 300 0 ⟨0, .forward, 3, true⟩ =
      .broke ⟨0, .forward, 10, false⟩ ∧
    tick linCalc 1000 .backward 300 300 0 ⟨500, .forward, 5, true⟩ =
      .next ⟨800, .forward, 8, true⟩ true ∧
    tick linCalc 1000 .backward 50 50 0 ⟨800, .forward, 8, true⟩ =
      .next ⟨850, .forward, 17 / 2, true⟩ true := by
  refine ⟨?_, ?_, ?_⟩
  · norm_num [tick, offset_time, linCalc_1000]
  · norm_num [tick, offset_time, linCalc_800]
    decide
  · norm_num [tick, offset_time, linCalc_850]
    decide

/-- Claim C8 (code bug): starting from the not-auto-started initial state, one
run(Forward) spawns a loop but leaves is_running false, so a second run(Forward)
issued while that loop is still alive spawns a second loop instead of being
absorbed. -/
theorem second_run_spawns_second_loop :
    (UseAnimator.run .forward (use_animation_init false linCalc)).activeLoops = 1 ∧
    (UseAnimator.run .forward (use_animation_init false linCalc)).is_running = false ∧
    (UseAnimator.run .forward
      (UseAnimator.run .forward (use_animation_init false linCalc))).activeLoops = 2 := by
  refine ⟨?_, ?_, ?_⟩ <;> norm_num [UseAnimator.run, use_animation_init]

/-- Claim C10: with auto_start = true the is_running flag starts true with no
loop in existence, every subsequent run() call only rewrites the direction
signal, so no tick loop is ever spawned, the value stays at its initial sample
calc(0), and is_running never becomes false. -/
theorem auto_start_true_blocks_all_runs (O : Type) (calcFn : Nat → O)
    (ds : List Direction) :
    (ds.foldl (fun s d => UseAnimator.run d s) (use_animation_init true calcFn)).activeLoops
        = 0 ∧
    (ds.foldl (fun s d => UseAnimator.run d s) (use_animation_init true calcFn)).is_running
        = true ∧
    (ds.foldl (fun s d => UseAnimator.run d s) (use_animation_init true calcFn)).value
        = calcFn 0 := by
  have key : ∀ (ds : List Direction) (s : SchedulerState O), s.is_running = true →
      (ds.foldl (fun s d => UseAnimator.run d s) s).is_running = true ∧
      (ds.foldl (fun s d => UseAnimator.run d s) s).activeLoops = s.activeLoops ∧
      (ds.foldl (fun s d => UseAnimator.run d s) s).value = s.value := by
    intro ds
    induction ds with
    | nil => intro s h; exact ⟨h, rfl, rfl⟩
    | cons d rest ih =>
      intro s h
      have hrun : UseAnimator.run d s = { s with direction := d } := by
        simp [UseAnimator.run, h]
      simp only [List.foldl_cons, hrun]
      exact ih { s with direction := d } h
  obtain ⟨h1, h2, h3⟩ := key ds (use_animation_init true calcFn) rfl
  exact ⟨h2, h1, h3⟩

end Freya
